import Mathlib

set_option linter.unusedSectionVars false

/-!
Shallow embedding of the `sipster` DFA simulator (`src/main.rs`) and proofs of
the specification's claims about it.

The Rust code defines a generic `DeterministicFiniteAutomaton<Q, A, F>` with a
partial transition function `F : Fn(Q, &A) -> Option<Q>`, a `Sequence` run
trace, the simulation routine `is_accepted`, and a constructor `new`.

Fatal `assert!` failures in the Rust code (input symbol outside the alphabet,
transition target outside the state set, start state outside the state set in
`new`) are modelled as `Except.error` results; normal returns are `Except.ok`.
The Rust `Debug` formatting used for the trace tags is modelled by explicit
functions `dq : Q → String` and `da : A → String` passed to `is_accepted`,
mirroring the `Debug` trait bounds of the source.
-/

namespace Sipster

/-- The DFA 5-tuple, mirroring the fields of the Rust struct
`DeterministicFiniteAutomaton` (`states`, `input_alphabet`,
`transition_function`, `start_state`, `final_states`). -/
structure DeterministicFiniteAutomaton (Q A : Type) where
  states : List Q
  input_alphabet : List A
  transition_function : Q → A → Option Q
  start_state : Q
  final_states : List Q

/-- The run trace, mirroring the Rust struct `Sequence`: the automaton
snapshot cloned into the trace, the ordered `(state, causing-symbol-tag)`
path, and the acceptance verdict. -/
structure Sequence (Q A : Type) where
  dfa : DeterministicFiniteAutomaton Q A
  sequence : List (Q × String)
  accept : Bool

/-- The two fatal assertion conditions that can abort `is_accepted`. -/
inductive RunError where
  | invalidSymbol
  | invalidTarget
deriving DecidableEq, Repr

/-- The fatal assertion condition that can abort `new`. -/
inductive ConstructError where
  | invalidAutomaton
deriving DecidableEq, Repr

variable {Q A : Type} [DecidableEq Q] [DecidableEq A]

/-- The symbol-consuming loop of `is_accepted` (`for symbol in string { ... }`
followed by the trailing `final_states.contains` check).  Arguments: current
state `q`, trace accumulated so far `seq`, remaining input.  Each step looks
up the transition; if defined it asserts the target is in `states` (error
`invalidTarget` models the fatal assertion), updates the state, recomputes the
verdict and appends to the path; if undefined it sets the verdict to `false`
and returns the trace as accumulated. -/
def runLoop (M : DeterministicFiniteAutomaton Q A) (da : A → String) :
    Q → Sequence Q A → List A → Except RunError (Sequence Q A)
  | q, seq, [] =>
      if q ∈ M.final_states then .ok { seq with accept := true } else .ok seq
  | q, seq, symbol :: rest =>
      match M.transition_function q symbol with
      | some next =>
          if next ∈ M.states then
            runLoop M da next
              { seq with
                accept := decide (next ∈ M.final_states)
                sequence := seq.sequence ++ [(next, da symbol)] } rest
          else .error .invalidTarget
      | none => .ok { seq with accept := false }

/-- `DeterministicFiniteAutomaton::is_accepted`.  First every input symbol is
checked against the alphabet (the initial `assert!` loop; failure is the fatal
`invalidSymbol` condition).  The trace starts with two entries for the start
state — one tagged with its debug representation `dq`, one tagged with the
empty string — and the verdict starts as "is the start state accepting". -/
def is_accepted (dq : Q → String) (da : A → String)
    (M : DeterministicFiniteAutomaton Q A) (string : List A) :
    Except RunError (Sequence Q A) :=
  if string.all (fun a => decide (a ∈ M.input_alphabet)) then
    let state := M.start_state
    let seq : Sequence Q A :=
      { dfa := M
        sequence := [(state, dq state), (state, "")]
        accept := decide (state ∈ M.final_states) }
    runLoop M da state seq string
  else .error .invalidSymbol

/-- `DeterministicFiniteAutomaton::new`.  The source asserts
`states.contains(&start_state)`; the subsequent
`final_states.iter().inspect(|q| assert!(states.contains(q)))` builds a lazy
iterator that is never consumed, so the accepting-state membership assertions
never execute and construction succeeds regardless of `final_states`. -/
def new (states : List Q) (input_alphabet : List A)
    (transition_function : Q → A → Option Q) (start_state : Q)
    (final_states : List Q) :
    Except ConstructError (DeterministicFiniteAutomaton Q A) :=
  if start_state ∈ states then
    .ok { states, input_alphabet, transition_function, start_state, final_states }
  else .error .invalidAutomaton

/-- The verdict of a run, when the run returned a trace at all. -/
def acceptOf : Except RunError (Sequence Q A) → Option Bool
  | .ok tr => some tr.accept
  | .error _ => none

/-- `runDefined M q s` holds when simulating `s` from `q` meets a defined
transition at every step and every target passes the `states` membership
assertion: exactly the condition for `runLoop` to consume all of `s`. -/
def runDefined (M : DeterministicFiniteAutomaton Q A) : Q → List A → Bool
  | _, [] => true
  | q, a :: rest =>
      match M.transition_function q a with
      | some q2 => decide (q2 ∈ M.states) && runDefined M q2 rest
      | none => false

/-- The state reached after following the defined transitions of `M` along a
word (meaningful under `runDefined`; an undefined step is ignored). -/
def deltaStar (M : DeterministicFiniteAutomaton Q A) : Q → List A → Q
  | q, [] => q
  | q, a :: rest =>
      match M.transition_function q a with
      | some q2 => deltaStar M q2 rest
      | none => q

/-- The path entries appended by `runLoop` along a fully defined run:
one `(reached state, symbol tag)` pair per consumed symbol. -/
def pathOf (M : DeterministicFiniteAutomaton Q A) (da : A → String) :
    Q → List A → List (Q × String)
  | _, [] => []
  | q, a :: rest =>
      match M.transition_function q a with
      | some q2 => (q2, da a) :: pathOf M da q2 rest
      | none => []

/-- An automaton whose transition function returns a state outside the state
set, exercising the `invalidTarget` assertion of `is_accepted`. -/
def badTarget : DeterministicFiniteAutomaton Nat Nat where
  states := [1]
  input_alphabet := [0]
  transition_function := fun _ _ => some 99
  start_state := 1
  final_states := []

/-- An automaton whose transition function always targets a declared state,
exercising the unreachability of the `invalidTarget` assertion. -/
def totalTarget : DeterministicFiniteAutomaton Nat Nat where
  states := [1]
  input_alphabet := [0]
  transition_function := fun _ _ => some 1
  start_state := 1
  final_states := [1]

/-- An automaton with a genuinely partial transition function over its own
alphabet: only `(1, 0)` has a successor, so the run rejects early on any
other pair. -/
def partialOne : DeterministicFiniteAutomaton Nat Nat where
  states := [1, 2]
  input_alphabet := [0, 1]
  transition_function := fun q a =>
    match q, a with
    | 1, 0 => some 2
    | _, _ => none
  start_state := 1
  final_states := [2]

/-- The automaton of the source test `figure_one_six` (Sipser Figure 1.6):
accepts words with at least one 1 followed by an even number of 0s. -/
def figOneSix : DeterministicFiniteAutomaton Nat Nat where
  states := [1, 2, 3]
  input_alphabet := [0, 1]
  transition_function := fun q a =>
    match q, a with
    | 1, 0 => some 1
    | 1, 1 => some 2
    | 2, 0 => some 3
    | 2, 1 => some 2
    | 3, 0 => some 2
    | 3, 1 => some 2
    | _, _ => none
  start_state := 1
  final_states := [2]

/-- A trivial tagging function standing in for a `Debug` instance. -/
def blankTag {T : Type} : T → String := fun _ => ""

/-- A numeric tagging function standing in for the `Debug` instance of a
numeric type. -/
def natTag : Nat → String := fun n => toString n

/-- The trace `is_accepted` produces for `figOneSix` on the empty input. -/
def trEmpty : Sequence Nat Nat where
  dfa := figOneSix
  sequence := [(1, ""), (1, "")]
  accept := false

/-- On input that is fully consumed (`runDefined`), `runLoop` returns the
accumulated trace extended with `pathOf`, with the verdict recomputed at the
final state, provided the incoming verdict matches the current state. -/
lemma runLoop_run (M : DeterministicFiniteAutomaton Q A) (da : A → String) :
    ∀ (s : List A) (q : Q) (seq : Sequence Q A),
      runDefined M q s = true → seq.accept = decide (q ∈ M.final_states) →
      runLoop M da q seq s =
        .ok { seq with
              accept := decide (deltaStar M q s ∈ M.final_states)
              sequence := seq.sequence ++ pathOf M da q s } := by
  intro s
  induction s with
  | nil =>
      intro q seq hd ha
      cases seq with
      | mk d sq ac =>
        simp only [runLoop, deltaStar, pathOf, List.append_nil]
        simp only at ha
        by_cases h : q ∈ M.final_states
        · rw [if_pos h]
          simp [ha, h]
        · rw [if_neg h]
          simp [ha, h]
  | cons a rest ih =>
      intro q seq hd ha
      cases htr : M.transition_function q a with
      | none => simp [runDefined, htr] at hd
      | some q2 =>
          simp only [runDefined, htr, Bool.and_eq_true, decide_eq_true_eq] at hd
          obtain ⟨hq2, hrest⟩ := hd
          simp only [runLoop, htr, deltaStar, pathOf]
          rw [if_pos hq2, ih q2 _ hrest (by simp)]
          simp

/-- When every symbol of the input is in the alphabet, `is_accepted` passes
the initial assertion loop and runs `runLoop` on the two-entry initial
trace. -/
lemma is_accepted_eq_runLoop (dq : Q → String) (da : A → String)
    (M : DeterministicFiniteAutomaton Q A) (s : List A)
    (hs : ∀ a ∈ s, a ∈ M.input_alphabet) :
    is_accepted dq da M s =
      runLoop M da M.start_state
        { dfa := M
          sequence := [(M.start_state, dq M.start_state), (M.start_state, "")]
          accept := decide (M.start_state ∈ M.final_states) } s := by
  simp only [is_accepted]
  rw [if_pos (List.all_eq_true.mpr (fun a ha => decide_eq_true (hs a ha)))]

/-- If a fully defined stretch `s1` is followed by a symbol with no defined
transition, `runLoop` stops there: verdict `false`, trace as accumulated, and
the remaining symbols `t` are irrelevant. -/
lemma runLoop_stop (M : DeterministicFiniteAutomaton Q A) (da : A → String)
    (a : A) (t : List A) :
    ∀ (s1 : List A) (q : Q) (seq : Sequence Q A),
      runDefined M q s1 = true → seq.accept = decide (q ∈ M.final_states) →
      M.transition_function (deltaStar M q s1) a = none →
      runLoop M da q seq (s1 ++ a :: t) =
        .ok { seq with
              accept := false
              sequence := seq.sequence ++ pathOf M da q s1 } := by
  intro s1
  induction s1 with
  | nil =>
      intro q seq hd ha hnone
      simp only [deltaStar] at hnone
      simp only [List.nil_append, runLoop, hnone, pathOf, List.append_nil]
  | cons b s1 ih =>
      intro q seq hd ha hnone
      cases htr : M.transition_function q b with
      | none => simp [runDefined, htr] at hd
      | some q2 =>
          simp only [runDefined, htr, Bool.and_eq_true, decide_eq_true_eq] at hd
          obtain ⟨hq2, hrest⟩ := hd
          simp only [deltaStar, htr] at hnone
          simp only [List.cons_append, runLoop, htr, pathOf, List.append_eq]
          rw [if_pos hq2, ih q2 _ hrest (by simp) hnone]
          simp

/-- If a fully defined stretch `s1` is followed by a symbol whose transition
target lies outside the state set, `runLoop` aborts with the fatal
`invalidTarget` assertion. -/
lemma runLoop_bad (M : DeterministicFiniteAutomaton Q A) (da : A → String)
    (a : A) (t : List A) (q2 : Q) :
    ∀ (s1 : List A) (q : Q) (seq : Sequence Q A),
      runDefined M q s1 = true →
      M.transition_function (deltaStar M q s1) a = some q2 → q2 ∉ M.states →
      runLoop M da q seq (s1 ++ a :: t) = .error .invalidTarget := by
  intro s1
  induction s1 with
  | nil =>
      intro q seq hd hsome hq2
      simp only [deltaStar] at hsome
      simp only [List.nil_append, runLoop, hsome]
      rw [if_neg hq2]
  | cons b s1 ih =>
      intro q seq hd hsome hq2
      cases htr : M.transition_function q b with
      | none => simp [runDefined, htr] at hd
      | some q3 =>
          simp only [runDefined, htr, Bool.and_eq_true, decide_eq_true_eq] at hd
          obtain ⟨hq3, hrest⟩ := hd
          simp only [deltaStar, htr] at hsome
          simp only [List.cons_append, runLoop, htr, List.append_eq]
          rw [if_pos hq3]
          exact ih q3 _ hrest hsome hq2

/-- If every defined transition of `M` targets a member of the state set, the
`invalidTarget` assertion branch of `runLoop` is unreachable. -/
lemma runLoop_noBad (M : DeterministicFiniteAutomaton Q A) (da : A → String)
    (hT : ∀ (q : Q) (a : A) (q2 : Q),
      M.transition_function q a = some q2 → q2 ∈ M.states) :
    ∀ (s : List A) (q : Q) (seq : Sequence Q A),
      runLoop M da q seq s ≠ .error .invalidTarget := by
  intro s
  induction s with
  | nil =>
      intro q seq
      simp only [runLoop]
      by_cases h : q ∈ M.final_states
      · rw [if_pos h]; simp
      · rw [if_neg h]; simp
  | cons a rest ih =>
      intro q seq
      cases htr : M.transition_function q a with
      | none => simp [runLoop, htr]
      | some q2 =>
          simp only [runLoop, htr]
          rw [if_pos (hT q a q2 htr)]
          exact ih q2 _

/-- The verdict computed by `runLoop` does not depend on the symbol-tagging
function nor on anything of the accumulated trace beyond its verdict
field. -/
lemma runLoop_acceptOf (M : DeterministicFiniteAutomaton Q A)
    (da da2 : A → String) :
    ∀ (s : List A) (q : Q) (seq seq2 : Sequence Q A),
      seq.accept = seq2.accept →
      acceptOf (runLoop M da q seq s) = acceptOf (runLoop M da2 q seq2 s) := by
  intro s
  induction s with
  | nil =>
      intro q seq seq2 h
      simp only [runLoop]
      by_cases hf : q ∈ M.final_states
      · rw [if_pos hf, if_pos hf]; simp [acceptOf]
      · rw [if_neg hf, if_neg hf]; simp [acceptOf, h]
  | cons a rest ih =>
      intro q seq seq2 h
      cases htr : M.transition_function q a with
      | none => simp [runLoop, htr, acceptOf]
      | some q2 =>
          simp only [runLoop, htr]
          by_cases hq2 : q2 ∈ M.states
          · rw [if_pos hq2, if_pos hq2]
            exact ih q2 _ _ (by simp)
          · rw [if_neg hq2, if_neg hq2]

/-- Every state entering the trace through `runLoop` has passed the `states`
membership assertion, so a trace returned normally only mentions states of
the automaton, provided the accumulated part already did. -/
lemma runLoop_states (M : DeterministicFiniteAutomaton Q A) (da : A → String) :
    ∀ (s : List A) (q : Q) (seq tr : Sequence Q A),
      (∀ p ∈ seq.sequence, p.1 ∈ M.states) →
      runLoop M da q seq s = .ok tr →
      ∀ p ∈ tr.sequence, p.1 ∈ M.states := by
  intro s
  induction s with
  | nil =>
      intro q seq tr hinv heq
      simp only [runLoop] at heq
      by_cases hf : q ∈ M.final_states
      · rw [if_pos hf] at heq
        simp only [Except.ok.injEq] at heq
        subst heq
        simpa using hinv
      · rw [if_neg hf] at heq
        simp only [Except.ok.injEq] at heq
        subst heq
        exact hinv
  | cons a rest ih =>
      intro q seq tr hinv heq
      cases htr : M.transition_function q a with
      | none =>
          simp only [runLoop, htr, Except.ok.injEq] at heq
          subst heq
          simpa using hinv
      | some q2 =>
          simp only [runLoop, htr] at heq
          by_cases hq2 : q2 ∈ M.states
          · rw [if_pos hq2] at heq
            refine ih q2 _ tr ?_ heq
            intro p hp
            rcases List.mem_append.mp hp with h1 | h2
            · exact hinv p h1
            · rcases List.mem_singleton.mp h2 with rfl
              exact hq2
          · rw [if_neg hq2] at heq
            exact absurd heq (by simp)

/-- A trace returned normally by `runLoop` extends the accumulated trace:
its path has the accumulated path as an initial segment. -/
lemma runLoop_extends (M : DeterministicFiniteAutomaton Q A) (da : A → String) :
    ∀ (s : List A) (q : Q) (seq tr : Sequence Q A),
      runLoop M da q seq s = .ok tr →
      ∃ rest, tr.sequence = seq.sequence ++ rest := by
  intro s
  induction s with
  | nil =>
      intro q seq tr heq
      simp only [runLoop] at heq
      by_cases hf : q ∈ M.final_states
      · rw [if_pos hf] at heq
        simp only [Except.ok.injEq] at heq
        subst heq
        exact ⟨[], by simp⟩
      · rw [if_neg hf] at heq
        simp only [Except.ok.injEq] at heq
        subst heq
        exact ⟨[], by simp⟩
  | cons a rest ih =>
      intro q seq tr heq
      cases htr : M.transition_function q a with
      | none =>
          simp only [runLoop, htr, Except.ok.injEq] at heq
          subst heq
          exact ⟨[], by simp⟩
      | some q2 =>
          simp only [runLoop, htr] at heq
          by_cases hq2 : q2 ∈ M.states
          · rw [if_pos hq2] at heq
            obtain ⟨r, hr⟩ := ih q2 _ tr heq
            exact ⟨(q2, da a) :: r, by simpa [List.append_assoc] using hr⟩
          · rw [if_neg hq2] at heq
            exact absurd heq (by simp)

/-- On a fully defined run, `pathOf` has one entry per consumed symbol. -/
lemma pathOf_length (M : DeterministicFiniteAutomaton Q A) (da : A → String) :
    ∀ (s : List A) (q : Q), runDefined M q s = true →
      (pathOf M da q s).length = s.length := by
  intro s
  induction s with
  | nil => intro q _; rfl
  | cons a rest ih =>
      intro q hd
      cases htr : M.transition_function q a with
      | none => simp [runDefined, htr] at hd
      | some q2 =>
          simp only [runDefined, htr, Bool.and_eq_true, decide_eq_true_eq] at hd
          simp [pathOf, htr, ih q2 hd.2]

/-- On a fully defined run, the symbol tags of `pathOf` are exactly the input
symbols, tagged in order. -/
lemma pathOf_symbols (M : DeterministicFiniteAutomaton Q A) (da : A → String) :
    ∀ (s : List A) (q : Q), runDefined M q s = true →
      (pathOf M da q s).map Prod.snd = s.map da := by
  intro s
  induction s with
  | nil => intro q _; rfl
  | cons a rest ih =>
      intro q hd
      cases htr : M.transition_function q a with
      | none => simp [runDefined, htr] at hd
      | some q2 =>
          simp only [runDefined, htr, Bool.and_eq_true, decide_eq_true_eq] at hd
          simp [pathOf, htr, ih q2 hd.2]

/-- C1: for every automaton and input sequence over its alphabet that is
fully consumed without an early exit, the returned trace's `accept` is true
iff the final state reached is accepting; in particular on the empty input
the verdict equals "start state is accepting". -/
theorem claim_C1_verdict (dq : Q → String) (da : A → String)
    (M : DeterministicFiniteAutomaton Q A) (s : List A)
    (hs : ∀ a ∈ s, a ∈ M.input_alphabet)
    (hd : runDefined M M.start_state s = true) :
    (∃ tr, is_accepted dq da M s = .ok tr ∧
      (tr.accept = true ↔ deltaStar M M.start_state s ∈ M.final_states)) ∧
    ∀ tr0, is_accepted dq da M [] = .ok tr0 →
      (tr0.accept = true ↔ M.start_state ∈ M.final_states) := by
  constructor
  · rw [is_accepted_eq_runLoop dq da M s hs,
      runLoop_run M da s M.start_state _ hd (by simp)]
    exact ⟨_, rfl, by simp⟩
  · intro tr0 h0
    rw [is_accepted_eq_runLoop dq da M [] (by simp),
      runLoop_run M da [] M.start_state _ rfl (by simp)] at h0
    simp only [Except.ok.injEq] at h0
    subst h0
    simp [deltaStar]

/-- Witness for C1, on the Figure 1.6 automaton and the input `[1, 0, 0]`. -/
theorem claim_C1_witness :
    (∃ tr, is_accepted blankTag blankTag figOneSix [1, 0, 0] = .ok tr ∧
      (tr.accept = true ↔
        deltaStar figOneSix figOneSix.start_state [1, 0, 0] ∈ figOneSix.final_states)) ∧
    ∀ tr0, is_accepted blankTag blankTag figOneSix [] = .ok tr0 →
      (tr0.accept = true ↔ figOneSix.start_state ∈ figOneSix.final_states) :=
  claim_C1_verdict blankTag blankTag figOneSix [1, 0, 0] (by decide) (by decide)

/-- C2: an undefined `(state, symbol)` pair ends the run at once with
verdict `false` and the path as accumulated so far; symbols after the
failing one influence neither the verdict nor the path. -/
theorem claim_C2_early_reject (dq : Q → String) (da : A → String)
    (M : DeterministicFiniteAutomaton Q A) (s1 : List A) (a : A) (s2 : List A)
    (hs : ∀ x ∈ s1 ++ a :: s2, x ∈ M.input_alphabet)
    (hd : runDefined M M.start_state s1 = true)
    (hnone : M.transition_function (deltaStar M M.start_state s1) a = none) :
    ∃ tr, is_accepted dq da M (s1 ++ a :: s2) = .ok tr ∧
      tr.accept = false ∧
      tr.sequence = (M.start_state, dq M.start_state) :: (M.start_state, "") ::
        pathOf M da M.start_state s1 ∧
      ∀ s2' : List A, (∀ x ∈ s2', x ∈ M.input_alphabet) →
        is_accepted dq da M (s1 ++ a :: s2') = .ok tr := by
  have key : ∀ t : List A, (∀ x ∈ t, x ∈ M.input_alphabet) →
      is_accepted dq da M (s1 ++ a :: t) =
        .ok { dfa := M
              sequence := (M.start_state, dq M.start_state) :: (M.start_state, "") ::
                pathOf M da M.start_state s1
              accept := false } := by
    intro t ht
    have hall : ∀ x ∈ s1 ++ a :: t, x ∈ M.input_alphabet := by
      intro x hx
      rcases List.mem_append.mp hx with h1 | h2
      · exact hs x (List.mem_append.mpr (.inl h1))
      · rcases List.mem_cons.mp h2 with rfl | h3
        · exact hs x (List.mem_append.mpr (.inr (List.mem_cons_self _ _)))
        · exact ht x h3
    rw [is_accepted_eq_runLoop dq da M _ hall,
      runLoop_stop M da a t s1 M.start_state _ hd (by simp) hnone]
    rfl
  have hsuffix : ∀ x ∈ s2, x ∈ M.input_alphabet := by
    intro x hx
    exact hs x (List.mem_append.mpr (.inr (List.mem_cons.mpr (.inr hx))))
  exact ⟨_, key s2 hsuffix, rfl, rfl, fun s2' h2 => key s2' h2⟩

/-- Witness for C2, on `partialOne` with defined stretch `[0]`, failing
symbol `1` and a nonempty irrelevant suffix. -/
theorem claim_C2_witness :
    ∃ tr, is_accepted blankTag blankTag partialOne ([0] ++ 1 :: [0]) = .ok tr ∧
      tr.accept = false ∧
      tr.sequence = (partialOne.start_state, blankTag partialOne.start_state) ::
        (partialOne.start_state, "") ::
        pathOf partialOne blankTag partialOne.start_state [0] ∧
      ∀ s2' : List Nat, (∀ x ∈ s2', x ∈ partialOne.input_alphabet) →
        is_accepted blankTag blankTag partialOne ([0] ++ 1 :: s2') = .ok tr :=
  claim_C2_early_reject blankTag blankTag partialOne [0] 1 [0]
    (by decide) (by decide) (by decide)

/-- C3 (code bug): the source intends `new` to reject an accepting state
outside the state set, but `final_states.iter().inspect(assert)` never runs
because the iterator is not consumed; at the failing input
`new([1], [], δ, 1, [2])` construction succeeds and returns the automaton
even though the accepting state 2 is not in the state set. -/
theorem claim_C3_construction_does_not_fail :
    new [1] ([] : List Nat) (fun _ _ => none) 1 [2] =
      .ok { states := [1], input_alphabet := [], transition_function := fun _ _ => none,
            start_state := 1, final_states := [2] } ∧
    ([1] : List Nat).contains 2 = false :=
  ⟨rfl, rfl⟩

/-- C4: `new` fails iff the start state is outside the state set; when the
start state is a member, it returns the automaton whose five fields equal the
arguments passed in. -/
theorem claim_C4_new_start_state (sts : List Q) (alph : List A)
    (f : Q → A → Option Q) (q0 : Q) (fin : List Q) :
    (q0 ∉ sts → new sts alph f q0 fin = .error .invalidAutomaton) ∧
    (q0 ∈ sts → new sts alph f q0 fin =
      .ok { states := sts, input_alphabet := alph, transition_function := f,
            start_state := q0, final_states := fin }) := by
  constructor
  · intro h
    simp only [new]
    rw [if_neg h]
  · intro h
    simp only [new]
    rw [if_pos h]

/-- Witness for C4: a failing construction (start state 2 absent) and a
succeeding one (start state 1 present). -/
theorem claim_C4_witness :
    new [1] ([] : List Nat) (fun _ _ => none) 2 [] = .error .invalidAutomaton ∧
    new [1] ([] : List Nat) (fun _ _ => none) 1 [] =
      .ok { states := [1], input_alphabet := [], transition_function := fun _ _ => none,
            start_state := 1, final_states := [] } :=
  ⟨(claim_C4_new_start_state [1] [] (fun _ _ => none) 2 []).1 (by decide),
   (claim_C4_new_start_state [1] [] (fun _ _ => none) 1 []).2 (by decide)⟩

/-- C5: an input containing a symbol outside the alphabet always hits the
fatal `invalidSymbol` condition, before any transition is attempted: no
trace is returned and the result does not depend on the transition function
at all. -/
theorem claim_C5_invalid_symbol (dq : Q → String) (da : A → String)
    (M : DeterministicFiniteAutomaton Q A) (s : List A)
    (hbad : ∃ a ∈ s, a ∉ M.input_alphabet) :
    is_accepted dq da M s = .error .invalidSymbol ∧
    ∀ f : Q → A → Option Q,
      is_accepted dq da { M with transition_function := f } s =
        .error .invalidSymbol := by
  obtain ⟨a, ha, hna⟩ := hbad
  have hnall : ¬ (s.all (fun x => decide (x ∈ M.input_alphabet)) = true) := by
    intro hall
    exact hna (by simpa using List.all_eq_true.mp hall a ha)
  constructor
  · simp only [is_accepted]
    rw [if_neg hnall]
  · intro f
    simp only [is_accepted]
    rw [if_neg hnall]

/-- Witness for C5: the symbol 5 is outside the alphabet of the Figure 1.6
automaton. -/
theorem claim_C5_witness :
    is_accepted blankTag blankTag figOneSix [5] = .error .invalidSymbol ∧
    ∀ f : Nat → Nat → Option Nat,
      is_accepted blankTag blankTag { figOneSix with transition_function := f } [5] =
        .error .invalidSymbol :=
  claim_C5_invalid_symbol blankTag blankTag figOneSix [5] ⟨5, by decide, by decide⟩

/-- C6: a defined transition whose target is outside the state set aborts the
run with the fatal `invalidTarget` assertion (no trace is returned);
conversely, if every defined transition target is in the state set, that
assertion branch is unreachable. -/
theorem claim_C6_invalid_target (dq : Q → String) (da : A → String)
    (M : DeterministicFiniteAutomaton Q A) (s : List A)
    (hs : ∀ a ∈ s, a ∈ M.input_alphabet) :
    ((∃ s1 a s2 q2, s = s1 ++ a :: s2 ∧
        runDefined M M.start_state s1 = true ∧
        M.transition_function (deltaStar M M.start_state s1) a = some q2 ∧
        q2 ∉ M.states) →
      is_accepted dq da M s = .error .invalidTarget) ∧
    ((∀ (q : Q) (a : A) (q2 : Q),
        M.transition_function q a = some q2 → q2 ∈ M.states) →
      is_accepted dq da M s ≠ .error .invalidTarget) := by
  constructor
  · rintro ⟨s1, a, s2, q2, rfl, hd, hsome, hq2⟩
    rw [is_accepted_eq_runLoop dq da M _ hs]
    exact runLoop_bad M da a s2 q2 s1 M.start_state _ hd hsome hq2
  · intro hT
    rw [is_accepted_eq_runLoop dq da M s hs]
    exact runLoop_noBad M da hT s M.start_state _

/-- Witness for C6: `badTarget` aborts with `invalidTarget` on `[0]`, while
`totalTarget` (all targets declared) can never reach that branch. -/
theorem claim_C6_witness :
    is_accepted blankTag blankTag badTarget [0] = .error .invalidTarget ∧
    is_accepted blankTag blankTag totalTarget [0] ≠ .error .invalidTarget := by
  constructor
  · exact (claim_C6_invalid_target blankTag blankTag badTarget [0] (by decide)).1
      ⟨[], 0, [], 99, rfl, rfl, rfl, by decide⟩
  · refine (claim_C6_invalid_target blankTag blankTag totalTarget [0] (by decide)).2 ?_
    intro q a q2 h
    simp only [totalTarget] at h ⊢
    obtain rfl := Option.some.inj h
    simp

/-- C7: a run that consumes all `n` input symbols without early rejection
returns a path of exactly `n + 2` entries: the two initial start-state
entries (one tagged with the state's debug representation, one with the
empty marker) followed by one entry per consumed symbol, tagged with that
symbol. -/
theorem claim_C7_trace_length (dq : Q → String) (da : A → String)
    (M : DeterministicFiniteAutomaton Q A) (s : List A)
    (hs : ∀ a ∈ s, a ∈ M.input_alphabet)
    (hd : runDefined M M.start_state s = true) :
    ∃ tr, is_accepted dq da M s = .ok tr ∧
      tr.sequence = (M.start_state, dq M.start_state) :: (M.start_state, "") ::
        pathOf M da M.start_state s ∧
      tr.sequence.length = s.length + 2 ∧
      (pathOf M da M.start_state s).map Prod.snd = s.map da := by
  rw [is_accepted_eq_runLoop dq da M s hs,
    runLoop_run M da s M.start_state _ hd (by simp)]
  refine ⟨_, rfl, rfl, ?_, pathOf_symbols M da s M.start_state hd⟩
  simp only [List.length_append, List.length_cons, List.length_nil,
    pathOf_length M da s M.start_state hd]
  omega

/-- Witness for C7, on the Figure 1.6 automaton and the input `[1, 0, 0]`. -/
theorem claim_C7_witness :
    ∃ tr, is_accepted blankTag blankTag figOneSix [1, 0, 0] = .ok tr ∧
      tr.sequence = (figOneSix.start_state, blankTag figOneSix.start_state) ::
        (figOneSix.start_state, "") ::
        pathOf figOneSix blankTag figOneSix.start_state [1, 0, 0] ∧
      tr.sequence.length = [1, 0, 0].length + 2 ∧
      (pathOf figOneSix blankTag figOneSix.start_state [1, 0, 0]).map Prod.snd =
        List.map blankTag [1, 0, 0] :=
  claim_C7_trace_length blankTag blankTag figOneSix [1, 0, 0] (by decide) (by decide)

/-- C8: `is_accepted` is deterministic — two calls with the same automaton
and input yield equal results — and the verdict depends only on the
automaton and the input, not on the debug-tagging functions. -/
theorem claim_C8_deterministic (dq dq2 : Q → String) (da da2 : A → String)
    (M : DeterministicFiniteAutomaton Q A) (s : List A)
    (hs : ∀ a ∈ s, a ∈ M.input_alphabet) :
    is_accepted dq da M s = is_accepted dq da M s ∧
    acceptOf (is_accepted dq da M s) = acceptOf (is_accepted dq2 da2 M s) := by
  refine ⟨rfl, ?_⟩
  rw [is_accepted_eq_runLoop dq da M s hs, is_accepted_eq_runLoop dq2 da2 M s hs]
  exact runLoop_acceptOf M da da2 s M.start_state _ _ rfl

/-- Witness for C8, on the Figure 1.6 automaton with two distinct tagging
functions. -/
theorem claim_C8_witness :
    is_accepted blankTag blankTag figOneSix [1, 0] =
      is_accepted blankTag blankTag figOneSix [1, 0] ∧
    acceptOf (is_accepted blankTag blankTag figOneSix [1, 0]) =
      acceptOf (is_accepted natTag natTag figOneSix [1, 0]) :=
  claim_C8_deterministic blankTag natTag blankTag natTag figOneSix [1, 0] (by decide)

/-- C9: the Figure 1.6 automaton accepts `[1, 0, 0]`, rejects `[1, 0, 0, 0]`
and rejects the empty input. -/
theorem claim_C9_figure_one_six :
    acceptOf (is_accepted blankTag blankTag figOneSix [1, 0, 0]) = some true ∧
    acceptOf (is_accepted blankTag blankTag figOneSix [1, 0, 0, 0]) = some false ∧
    acceptOf (is_accepted blankTag blankTag figOneSix []) = some false :=
  ⟨by decide, by decide, by decide⟩

/-- C10 (implicit invariant): whenever `is_accepted` returns a trace, every
state in its path is a declared state (given that the start state is), the
path has at least two entries, and the first two entries both hold the start
state. -/
theorem claim_C10_trace_invariant (dq : Q → String) (da : A → String)
    (M : DeterministicFiniteAutomaton Q A) (s : List A)
    (hstart : M.start_state ∈ M.states)
    (hs : ∀ a ∈ s, a ∈ M.input_alphabet) :
    ∀ tr, is_accepted dq da M s = .ok tr →
      (∀ p ∈ tr.sequence, p.1 ∈ M.states) ∧
      2 ≤ tr.sequence.length ∧
      ∃ rest, tr.sequence = (M.start_state, dq M.start_state) ::
        (M.start_state, "") :: rest := by
  intro tr htr
  rw [is_accepted_eq_runLoop dq da M s hs] at htr
  obtain ⟨r, hr⟩ := runLoop_extends M da s M.start_state _ tr htr
  refine ⟨runLoop_states M da s M.start_state _ tr ?_ htr, ?_, ?_⟩
  · intro p hp
    rcases List.mem_cons.mp hp with rfl | hp2
    · exact hstart
    · rcases List.mem_cons.mp hp2 with rfl | hp3
      · exact hstart
      · simp at hp3
  · rw [hr]
    simp
  · exact ⟨r, by simpa using hr⟩

/-- Witness for C10, on the Figure 1.6 automaton and the empty input. -/
theorem claim_C10_witness :
    (∀ p ∈ trEmpty.sequence, p.1 ∈ figOneSix.states) ∧
    2 ≤ trEmpty.sequence.length ∧
    ∃ rest, trEmpty.sequence = (figOneSix.start_state, blankTag figOneSix.start_state) ::
      (figOneSix.start_state, "") :: rest :=
  claim_C10_trace_invariant blankTag blankTag figOneSix [] (by decide) (by decide)
    trEmpty rfl

end Sipster
